import Mathlib

/-!
Shallow embedding of the file-status model (`RevisionFile`, src/git/RevisionFile.h)
and the working-set reconciliation logic of `WorkInProgressWidget`
(src/src/commits/WorkInProgressWidget.cpp) of the GitQlient repository.

Status flags are machine ints used as bitmasks; they are embedded as `Nat`
with the exact enum values of RevisionFile.h.  The retained display cache
`mCurrentFilesCache : QMap<QString, QPair<bool, QListWidgetItem*>>` is
embedded as an association list from path to a pair of the `seen` mark and
the data stored on the `QListWidgetItem` (list role / bucket, name, conflict
role, foreground color).
-/

namespace GitQlient

/-- Flag value of `RevisionFile::StatusFlag`, RevisionFile.h lines 9-19. -/
def MODIFIED : Nat := 1

/-- Flag value of `RevisionFile::StatusFlag`, RevisionFile.h lines 9-19. -/
def DELETED : Nat := 2

/-- Flag value of `RevisionFile::StatusFlag`, RevisionFile.h lines 9-19. -/
def NEW : Nat := 4

/-- Flag value of `RevisionFile::StatusFlag`, RevisionFile.h lines 9-19. -/
def RENAMED : Nat := 8

/-- Flag value of `RevisionFile::StatusFlag`, RevisionFile.h lines 9-19. -/
def COPIED : Nat := 16

/-- Flag value of `RevisionFile::StatusFlag`, RevisionFile.h lines 9-19. -/
def UNKNOWN : Nat := 32

/-- Flag value of `RevisionFile::StatusFlag`, RevisionFile.h lines 9-19. -/
def IN_INDEX : Nat := 64

/-- Flag value of `RevisionFile::StatusFlag`, RevisionFile.h lines 9-19. -/
def CONFLICT : Nat := 128

/-- Whether a flag bit is set in a status bitmask (the `status & flag` test
underlying `RevisionFile::statusCmp`). -/
def statusHasFlag (flags sf : Nat) : Bool := (flags &&& sf) != 0

/-- The three display lists of the work-in-progress widget:
`untrackedFilesList`, `stagedFilesList`, `unstagedFilesList`. -/
inductive Bucket
  | untracked
  | staged
  | unstaged
deriving DecidableEq, Repr

/-- The colors returned by `GitQlientStyles` in
`WorkInProgressWidget::getColorForFile`. -/
inductive FileColor
  | blue
  | red
  | orange
  | green
  | textColor
deriving DecidableEq, Repr

/-- Embeds `WorkInProgressWidget::getColorForFile`, WorkInProgressWidget.cpp
lines 173-197: conflict is blue, then deleted red, then untracked orange,
then new/unknown/in-index green, otherwise the default text color. -/
def getColorForFile (flags : Nat) : FileColor :=
  if statusHasFlag flags CONFLICT then FileColor.blue
  else if statusHasFlag flags DELETED then FileColor.red
  else if !statusHasFlag flags IN_INDEX && statusHasFlag flags UNKNOWN then FileColor.orange
  else if statusHasFlag flags NEW || statusHasFlag flags UNKNOWN
          || statusHasFlag flags IN_INDEX then FileColor.green
  else FileColor.textColor

/-- Bucket classification computed in `WorkInProgressWidget::insertFiles`,
WorkInProgressWidget.cpp lines 227-238: `untrackedFile = !isInIndex && isUnknown`,
`staged = isInIndex && !isUnknown && !isConflict`, and the parent list
otherwise stays the unstaged list the method was invoked with
(`configure`, line 111). -/
def bucketOf (flags : Nat) : Bucket :=
  if !statusHasFlag flags IN_INDEX && statusHasFlag flags UNKNOWN then Bucket.untracked
  else if statusHasFlag flags IN_INDEX && !statusHasFlag flags UNKNOWN
          && !statusHasFlag flags CONFLICT then Bucket.staged
  else Bucket.unstaged

/-- The data the widget stores on a cached `QListWidgetItem`: the parent
list (`U_ListRole`), the display name (`U_Name`, suffixed for conflicts at
WorkInProgressWidget.cpp lines 249-256), the conflict mark (`U_IsConflict`)
and the foreground color. -/
structure DisplayItem where
  bucket : Bucket
  name : String
  isConflict : Bool
  color : FileColor
deriving DecidableEq, Repr

/-- The item built for a fresh path in `WorkInProgressWidget::insertFiles`,
WorkInProgressWidget.cpp lines 227-276. -/
def mkDisplayItem (fileName : String) (flags : Nat) : DisplayItem :=
  let isConflict := statusHasFlag flags CONFLICT
  { bucket := bucketOf flags
    name := if isConflict then fileName ++ (" (conflicts") else fileName
    isConflict := isConflict
    color := getColorForFile flags }

/-- The retained mapping `mCurrentFilesCache`: path to (seenInCurrentPass,
cached item). -/
abbrev Cache := List (String × (Bool × DisplayItem))

/-- Lookup (`QMap::value`) on `mCurrentFilesCache`: first entry with the given key. -/
def cacheLookup (cache : Cache) (fileName : String) : Option (Bool × DisplayItem) :=
  match cache with
  | [] => none
  | e :: rest => if e.1 = fileName then some e.2 else cacheLookup rest fileName

/-- Embeds `mCurrentFilesCache[fileName].first = true` (WorkInProgressWidget.cpp
line 279): mark the entry of the given path as seen, leaving its item
untouched. -/
def markSeen : Cache → String → Cache
  | [], _ => []
  | e :: rest, fileName =>
    (if e.1 = fileName then (e.1, (true, e.2.2)) else e) :: markSeen rest fileName

/-- Observable reconciliation actions of a pass: creating a new item in a
bucket (WorkInProgressWidget.cpp lines 240-276) and deleting a stale item
(lines 209-212).  The code has no move/update action: an existing path is
only re-marked as seen. -/
inductive ReconcileAction
  | insert (path : String) (item : DisplayItem)
  | remove (path : String)
deriving DecidableEq, Repr

/-- The path an action is about. -/
def ReconcileAction.path : ReconcileAction → String
  | insert p _ => p
  | remove p => p

/-- Embeds `WorkInProgressWidget::prepareCache`, WorkInProgressWidget.cpp lines
199-203: reset every entry's seen mark to false. -/
def prepareCache : Cache → Cache
  | [] => []
  | e :: rest => (e.1, (false, e.2.2)) :: prepareCache rest

/-- Embeds `WorkInProgressWidget::clearCache`, WorkInProgressWidget.cpp lines
205-217: delete every entry still unseen, keep the rest. -/
def clearCache (cache : Cache) : Cache × List ReconcileAction :=
  (cache.filter fun e => e.2.1,
   (cache.filter fun e => !e.2.1).map fun e => ReconcileAction.remove e.1)

/-- Embeds `WorkInProgressWidget::insertFiles`, WorkInProgressWidget.cpp lines
219-281, over the (path, flags) entries of the `RevisionFiles` set: a path
not yet cached gets a fresh item (bucket, conflict suffix, color computed
from its flags) and is inserted with seen = true; a path already cached is
only marked seen. -/
def insertFiles : List (String × Nat) → Cache → Cache × List ReconcileAction
  | [], cache => (cache, [])
  | (fileName, flags) :: rest, cache =>
    if (cacheLookup cache fileName).isSome then
      insertFiles rest (markSeen cache fileName)
    else
      let item := mkDisplayItem fileName flags
      let r := insertFiles rest (cache ++ [(fileName, (true, item))])
      (r.1, ReconcileAction.insert fileName item :: r.2)

/-- One reconciliation pass as performed by `WorkInProgressWidget::configure`
(WorkInProgressWidget.cpp lines 109-113): `prepareCache`, then
`insertFiles`, then `clearCache`; insert actions precede remove actions. -/
def reconcilePass (entries : List (String × Nat)) (cache : Cache) :
    Cache × List ReconcileAction :=
  let afterInsert := insertFiles entries (prepareCache cache)
  let afterClear := clearCache afterInsert.1
  (afterClear.1, afterInsert.2 ++ afterClear.2)

/-- The `RevisionFile` data, RevisionFile.h lines 21-53 (`mergeParent` is
unused by the core).  `mOnlyModified` defaults to true (line 51). -/
structure RevisionFile where
  mFiles : List String := []
  mFileStatus : List Nat := []
  mRenamedFiles : List String := []
  mOnlyModified : Bool := true
deriving DecidableEq, Repr

/-- A freshly constructed, empty `RevisionFile`. -/
def emptyRevisionFile : RevisionFile := {}

/-- The only intrinsic error kind of the core (spec section 7). -/
inductive GitError
  | outOfRange
deriving DecidableEq, Repr

/-- Embeds `RevisionFile::count`, RevisionFile.h line 27. -/
def RevisionFile.count (rf : RevisionFile) : Nat := rf.mFiles.length

/-- Embeds `RevisionFile::getFile`, RevisionFile.h line 38: `mFiles.at(index)`,
whose bounds check fails outside `[0, count())`. -/
def RevisionFile.getFile (rf : RevisionFile) (index : Int) : Except GitError String :=
  if 0 ≤ index ∧ index < (rf.count : Int) then
    match rf.mFiles.get? index.toNat with
    | some p => Except.ok p
    | none => Except.error GitError.outOfRange
  else Except.error GitError.outOfRange

/-- Modelled from the spec: `RevisionFile::statusCmp` is declared at
RevisionFile.h line 28 but its definition (RevisionFile.cpp) is not among
the sources.  Spec sections 4.1 and 8: it returns whether the flag is set
for the entry at the index, and fails with OutOfRange when the index is not
in `[0, count())`. -/
def RevisionFile.statusCmp (rf : RevisionFile) (index : Int) (sf : Nat) :
    Except GitError Bool :=
  if 0 ≤ index ∧ index < (rf.count : Int) then
    match rf.mFileStatus.get? index.toNat with
    | some st => Except.ok (statusHasFlag st sf)
    | none => Except.error GitError.outOfRange
  else Except.error GitError.outOfRange

/-- Modelled from the spec: the token-to-flag table of
`RevisionFile::setStatus(const QString &)` (declared at RevisionFile.h
line 30; RevisionFile.cpp is not among the sources).  Spec section 4.1:
token prefix M gives MODIFIED, A gives NEW, D gives DELETED,
R followed by digits gives RENAMED, C followed by digits gives COPIED,
U gives CONFLICT, anything else gives UNKNOWN. -/
def statusTokenFlag (rowSt : String) : Nat :=
  match rowSt.data with
  | 'M' :: _ => MODIFIED
  | 'A' :: _ => NEW
  | 'D' :: _ => DELETED
  | 'U' :: _ => CONFLICT
  | 'R' :: rest => if !rest.isEmpty && rest.all Char.isDigit then RENAMED else UNKNOWN
  | 'C' :: rest => if !rest.isEmpty && rest.all Char.isDigit then COPIED else UNKNOWN
  | _ => UNKNOWN

/-- Modelled from the spec: `RevisionFile::setStatus(const QString &)`
appends the entry flags parsed from a raw status token; any applied flag
other than exactly MODIFIED clears `mOnlyModified` permanently
(spec sections 4.1 and 8). -/
def RevisionFile.setStatusRow (rf : RevisionFile) (rowSt : String) : RevisionFile :=
  { rf with
    mFileStatus := rf.mFileStatus ++ [statusTokenFlag rowSt]
    mOnlyModified := rf.mOnlyModified && (statusTokenFlag rowSt == MODIFIED) }

/-- Modelled from the spec: `RevisionFile::setStatus(StatusFlag)` (declared
at RevisionFile.h line 31; definition not among the sources) appends a new
status entry; a flag other than exactly MODIFIED clears `mOnlyModified`. -/
def RevisionFile.setStatusFlag (rf : RevisionFile) (flag : Nat) : RevisionFile :=
  { rf with
    mFileStatus := rf.mFileStatus ++ [flag]
    mOnlyModified := rf.mOnlyModified && (flag == MODIFIED) }

/-- Modelled from the spec: `RevisionFile::setStatus(int, StatusFlag)`
(RevisionFile.h line 32) overwrites the flags of one entry; a flag other
than exactly MODIFIED clears `mOnlyModified`. -/
def RevisionFile.setStatusAt (rf : RevisionFile) (pos : Nat) (flag : Nat) : RevisionFile :=
  { rf with
    mFileStatus := rf.mFileStatus.set pos flag
    mOnlyModified := rf.mOnlyModified && (flag == MODIFIED) }

/-- Modelled from the spec: `RevisionFile::appendStatus(int, StatusFlag)`
(RevisionFile.h line 33) ors a flag into one entry; a flag other than
exactly MODIFIED clears `mOnlyModified`. -/
def RevisionFile.appendStatusAt (rf : RevisionFile) (pos : Nat) (flag : Nat) : RevisionFile :=
  { rf with
    mFileStatus := rf.mFileStatus.set pos ((rf.mFileStatus.getD pos 0) ||| flag)
    mOnlyModified := rf.mOnlyModified && (flag == MODIFIED) }

/-- A flag-applying operation of the `RevisionFile` building interface. -/
inductive RFOp
  | statusToken (rowSt : String)
  | statusFlag (flag : Nat)
  | statusAt (pos : Nat) (flag : Nat)
  | appendAt (pos : Nat) (flag : Nat)
deriving DecidableEq, Repr

/-- The flag value an operation applies. -/
def RFOp.flagOf : RFOp → Nat
  | statusToken s => statusTokenFlag s
  | statusFlag f => f
  | statusAt _ f => f
  | appendAt _ f => f

/-- Run one building operation. -/
def RevisionFile.applyOp (rf : RevisionFile) : RFOp → RevisionFile
  | RFOp.statusToken s => rf.setStatusRow s
  | RFOp.statusFlag f => rf.setStatusFlag f
  | RFOp.statusAt p f => rf.setStatusAt p f
  | RFOp.appendAt p f => rf.appendStatusAt p f

/-- Run a sequence of building operations. -/
def RevisionFile.applyOps (rf : RevisionFile) (ops : List RFOp) : RevisionFile :=
  ops.foldl RevisionFile.applyOp rf

/-- Embeds `WorkInProgressWidget::hasConflicts`, WorkInProgressWidget.cpp lines
419-426: some cached item carries the `U_IsConflict` mark. -/
def hasConflicts (cache : Cache) : Bool :=
  cache.any fun e => e.2.2.isConflict

/-- Outcome of `WorkInProgressWidget::commitChanges`: whether
`GitLocal::commitFiles` was invoked (line 448) and the returned `done`. -/
structure CommitOutcome where
  commitInvoked : Bool
  done : Bool
deriving DecidableEq, Repr

/-- Embeds `WorkInProgressWidget::commitChanges`, WorkInProgressWidget.cpp lines
428-463: with a non-empty staged list (`getFiles`), no conflicted cached
item, and a passing message check, the commit is invoked and done is true;
otherwise a warning path is taken, nothing is committed and done stays
false.  The `checkMsg` validation (lines 382-412) is represented by its
boolean outcome `msgOk`. -/
def commitChanges (selFiles : List String) (cache : Cache) (msgOk : Bool) : CommitOutcome :=
  if !selFiles.isEmpty then
    if hasConflicts cache then { commitInvoked := false, done := false }
    else if msgOk then { commitInvoked := true, done := true }
    else { commitInvoked := false, done := false }
  else { commitInvoked := false, done := false }

/-! ## Helper lemmas -/

theorem applyOp_onlyModified (rf : RevisionFile) (op : RFOp) :
    (rf.applyOp op).mOnlyModified = (rf.mOnlyModified && (op.flagOf == MODIFIED)) := by
  cases op <;> rfl

theorem applyOps_onlyModified (ops : List RFOp) (rf : RevisionFile) :
    (rf.applyOps ops).mOnlyModified
      = (rf.mOnlyModified && ops.all fun op => op.flagOf == MODIFIED) := by
  induction ops generalizing rf with
  | nil => simp [RevisionFile.applyOps]
  | cons op rest ih =>
    show (RevisionFile.applyOps (rf.applyOp op) rest).mOnlyModified = _
    rw [ih, applyOp_onlyModified, List.all_cons, Bool.and_assoc]

theorem cacheLookup_append (l1 l2 : Cache) (f : String) :
    cacheLookup (l1 ++ l2) f =
      if (cacheLookup l1 f).isSome then cacheLookup l1 f else cacheLookup l2 f := by
  induction l1 with
  | nil => simp [cacheLookup]
  | cons e rest ih =>
    by_cases he : e.1 = f <;> simp [cacheLookup, he, ih]

theorem cacheLookup_markSeen_self (c : Cache) (f : String) :
    cacheLookup (markSeen c f) f = (cacheLookup c f).map fun v => (true, v.2) := by
  induction c with
  | nil => rfl
  | cons e rest ih =>
    by_cases he : e.1 = f <;> simp [cacheLookup, markSeen, he, ih]

theorem cacheLookup_markSeen_ne (c : Cache) (f g : String) (h : g ≠ f) :
    cacheLookup (markSeen c f) g = cacheLookup c g := by
  induction c with
  | nil => rfl
  | cons e rest ih =>
    by_cases he : e.1 = f
    · have hne : e.1 ≠ g := by rw [he]; exact fun hh => h hh.symm
      simp [markSeen, cacheLookup, he, hne, Ne.symm h, ih]
    · simp [markSeen, cacheLookup, he, ih]

theorem cacheLookup_markSeen_isSome (c : Cache) (f g : String) :
    (cacheLookup (markSeen c f) g).isSome = (cacheLookup c g).isSome := by
  by_cases h : g = f
  · subst h
    rw [cacheLookup_markSeen_self]
    cases cacheLookup c g <;> rfl
  · rw [cacheLookup_markSeen_ne c f g h]

theorem cacheLookup_prepareCache (c : Cache) (f : String) :
    cacheLookup (prepareCache c) f = (cacheLookup c f).map fun v => (false, v.2) := by
  induction c with
  | nil => rfl
  | cons e rest ih =>
    by_cases he : e.1 = f <;> simp [cacheLookup, prepareCache, he, ih]

theorem mem_prepareCache (c : Cache) :
    ∀ e ∈ prepareCache c, ∃ e0 ∈ c, e = (e0.1, (false, e0.2.2)) := by
  induction c with
  | nil => intro e he; cases he
  | cons e0 rest ih =>
    intro e he
    rcases List.mem_cons.1 he with heq | hmem
    · exact ⟨e0, List.mem_cons_self _ _, heq⟩
    · rcases ih e hmem with ⟨e1, he1, heq1⟩
      exact ⟨e1, List.mem_cons_of_mem _ he1, heq1⟩

theorem prepareCache_seen_false (c : Cache) :
    ∀ e ∈ prepareCache c, e.2.1 = false := by
  intro e he
  rcases mem_prepareCache c e he with ⟨e0, _, heq⟩
  rw [heq]

theorem mem_cacheLookup_isSome (c : Cache) (f : String) (v : Bool × DisplayItem)
    (h : (f, v) ∈ c) : (cacheLookup c f).isSome := by
  induction c with
  | nil => cases h
  | cons e rest ih =>
    by_cases he : e.1 = f
    · simp [cacheLookup, he]
    · rcases List.mem_cons.1 h with heq | hmem
      · rw [← heq] at he
        exact absurd rfl he
      · simpa [cacheLookup, he] using ih hmem

theorem clearCache_fst (c : Cache) : (clearCache c).1 = c.filter fun e => e.2.1 := rfl

theorem clearCache_snd (c : Cache) :
    (clearCache c).2 = (c.filter fun e => !e.2.1).map fun e => ReconcileAction.remove e.1 :=
  rfl

theorem clearCache_lookup_seen : ∀ (c : Cache) (f : String) (it : DisplayItem),
    cacheLookup c f = some (true, it) →
    cacheLookup (clearCache c).1 f = some (true, it)
  | [], f, it => fun h => by simp [cacheLookup] at h
  | e :: rest, f, it => fun h => by
    rw [clearCache_fst, List.filter_cons]
    by_cases he : e.1 = f
    · have h2 : e.2 = (true, it) := by
        rw [cacheLookup, if_pos he] at h
        exact Option.some.inj h
      rw [h2]
      simp [cacheLookup, he, h2]
    · have h2 : cacheLookup rest f = some (true, it) := by
        rwa [cacheLookup, if_neg he] at h
      have hrec := clearCache_lookup_seen rest f it h2
      rw [clearCache_fst] at hrec
      cases hs : e.2.1 with
      | true => simpa [cacheLookup, he, hs] using hrec
      | false => simpa [hs] using hrec

theorem clearCache_no_remove_for_seen (c : Cache) (f : String)
    (h : ∀ e ∈ c, e.1 = f → e.2.1 = true) :
    ∀ a ∈ (clearCache c).2, ReconcileAction.path a ≠ f := by
  intro a ha hpath
  rw [clearCache_snd] at ha
  rcases List.mem_map.1 ha with ⟨e, he, heq⟩
  rcases List.mem_filter.1 he with ⟨hemem, hunseen⟩
  rw [← heq] at hpath
  have hseen := h e hemem hpath
  rw [hseen] at hunseen
  cases hunseen

theorem insertFiles_cons_present (g : String) (fl : Nat) (rest : List (String × Nat))
    (c : Cache) (h : (cacheLookup c g).isSome) :
    insertFiles ((g, fl) :: rest) c = insertFiles rest (markSeen c g) := by
  simp [insertFiles, h]

theorem insertFiles_cons_new (g : String) (fl : Nat) (rest : List (String × Nat))
    (c : Cache) (h : cacheLookup c g = none) :
    insertFiles ((g, fl) :: rest) c
      = ((insertFiles rest (c ++ [(g, (true, mkDisplayItem g fl))])).1,
         ReconcileAction.insert g (mkDisplayItem g fl)
           :: (insertFiles rest (c ++ [(g, (true, mkDisplayItem g fl))])).2) := by
  simp [insertFiles, h]

theorem insertFiles_lookup :
    ∀ (es : List (String × Nat)) (c : Cache) (f : String) (s : Bool) (it : DisplayItem),
    cacheLookup c f = some (s, it) →
    cacheLookup (insertFiles es c).1 f
      = some ((if f ∈ es.map Prod.fst then true else s), it)
  | [], c, f, s, it => fun h => by simpa [insertFiles] using h
  | (g, fl) :: rest, c, f, s, it => fun h => by
    by_cases hg : (cacheLookup c g).isSome
    · rw [insertFiles_cons_present g fl rest c hg]
      by_cases hgf : g = f
      · subst hgf
        have h2 : cacheLookup (markSeen c g) g = some (true, it) := by
          rw [cacheLookup_markSeen_self, h]
          rfl
        rw [insertFiles_lookup rest (markSeen c g) g true it h2]
        simp
      · have hfg : f ≠ g := fun hh => hgf hh.symm
        have h2 : cacheLookup (markSeen c g) f = some (s, it) := by
          rw [cacheLookup_markSeen_ne c g f hfg]
          exact h
        rw [insertFiles_lookup rest (markSeen c g) f s it h2]
        have hiff : (f ∈ ((g, fl) :: rest).map Prod.fst) ↔ (f ∈ rest.map Prod.fst) := by
          simp [hfg]
        rw [if_congr hiff rfl rfl]
    · have hgn : cacheLookup c g = none := Option.not_isSome_iff_eq_none.1 hg
      have hfg : f ≠ g := by
        intro hh
        rw [hh, hgn] at h
        cases h
      rw [insertFiles_cons_new g fl rest c hgn]
      have h2 : cacheLookup (c ++ [(g, (true, mkDisplayItem g fl))]) f = some (s, it) := by
        rw [cacheLookup_append, h]
        rfl
      rw [insertFiles_lookup rest _ f s it h2]
      have hiff : (f ∈ ((g, fl) :: rest).map Prod.fst) ↔ (f ∈ rest.map Prod.fst) := by
        simp [hfg]
      rw [if_congr hiff rfl rfl]

theorem insertFiles_actions_not_present :
    ∀ (es : List (String × Nat)) (c : Cache) (f : String),
    (cacheLookup c f).isSome →
    ∀ a ∈ (insertFiles es c).2, ReconcileAction.path a ≠ f
  | [], c, f => fun _ a ha => by simp [insertFiles] at ha
  | (g, fl) :: rest, c, f => fun h a ha => by
    by_cases hg : (cacheLookup c g).isSome
    · rw [insertFiles_cons_present g fl rest c hg] at ha
      have h2 : (cacheLookup (markSeen c g) f).isSome := by
        rw [cacheLookup_markSeen_isSome]
        exact h
      exact insertFiles_actions_not_present rest (markSeen c g) f h2 a ha
    · have hgn : cacheLookup c g = none := Option.not_isSome_iff_eq_none.1 hg
      have hgf : g ≠ f := by
        intro hh
        rw [← hh] at h
        rw [hgn] at h
        simp at h
      rw [insertFiles_cons_new g fl rest c hgn] at ha
      rcases List.mem_cons.1 ha with heq | hmem
      · rw [heq]
        exact hgf
      · have h2 : (cacheLookup (c ++ [(g, (true, mkDisplayItem g fl))]) f).isSome := by
          rw [cacheLookup_append]
          simp [h]
        exact insertFiles_actions_not_present rest _ f h2 a hmem

theorem markSeen_marks : ∀ (c : Cache) (f : String),
    ∀ e ∈ markSeen c f, e.1 = f → e.2.1 = true
  | [], _ => fun e he => by cases he
  | e0 :: rest, f => fun e he hef => by
    rw [markSeen] at he
    rcases List.mem_cons.1 he with heq | hmem
    · by_cases h0 : e0.1 = f
      · rw [if_pos h0] at heq
        rw [heq]
      · rw [if_neg h0] at heq
        rw [heq] at hef
        exact absurd hef h0
    · exact markSeen_marks rest f e hmem hef

theorem markSeen_keeps_key_seen : ∀ (c : Cache) (g f : String),
    (∀ e ∈ c, e.1 = f → e.2.1 = true) →
    ∀ e ∈ markSeen c g, e.1 = f → e.2.1 = true
  | [], _, _ => fun _ e he => by cases he
  | e0 :: rest, g, f => fun h e he hef => by
    rw [markSeen] at he
    rcases List.mem_cons.1 he with heq | hmem
    · by_cases h0 : e0.1 = g
      · rw [if_pos h0] at heq
        rw [heq]
      · rw [if_neg h0] at heq
        rw [heq]
        rw [heq] at hef
        exact h e0 (List.mem_cons_self _ _) hef
    · exact markSeen_keeps_key_seen rest g f
        (fun e' he' => h e' (List.mem_cons_of_mem _ he')) e hmem hef

theorem insertFiles_preserve_key_seen :
    ∀ (es : List (String × Nat)) (c : Cache) (f : String),
    (∀ e ∈ c, e.1 = f → e.2.1 = true) →
    ∀ e ∈ (insertFiles es c).1, e.1 = f → e.2.1 = true
  | [], c, f => fun h => by simpa [insertFiles] using h
  | (g, fl) :: rest, c, f => fun h e he hef => by
    by_cases hg : (cacheLookup c g).isSome
    · rw [insertFiles_cons_present g fl rest c hg] at he
      exact insertFiles_preserve_key_seen rest (markSeen c g) f
        (markSeen_keeps_key_seen c g f h) e he hef
    · have hgn : cacheLookup c g = none := Option.not_isSome_iff_eq_none.1 hg
      rw [insertFiles_cons_new g fl rest c hgn] at he
      refine insertFiles_preserve_key_seen rest _ f ?_ e he hef
      intro e' he' hef'
      rcases List.mem_append.1 he' with hc | hnew
      · exact h e' hc hef'
      · rcases List.mem_cons.1 hnew with heq | habs
        · rw [heq]
        · cases habs

theorem insertFiles_key_seen :
    ∀ (es : List (String × Nat)) (c : Cache) (f : String),
    f ∈ es.map Prod.fst → (cacheLookup c f).isSome →
    ∀ e ∈ (insertFiles es c).1, e.1 = f → e.2.1 = true
  | [], _, f => fun hmem => by cases hmem
  | (g, fl) :: rest, c, f => fun hmem hsome e he hef => by
    by_cases hg : (cacheLookup c g).isSome
    · rw [insertFiles_cons_present g fl rest c hg] at he
      by_cases hgf : g = f
      · subst hgf
        exact insertFiles_preserve_key_seen rest (markSeen c g) g
          (markSeen_marks c g) e he hef
      · have hfg : f ≠ g := fun hh => hgf hh.symm
        have hmem2 : f ∈ rest.map Prod.fst := by
          rw [List.map_cons] at hmem
          rcases List.mem_cons.1 hmem with heq | h2
          · exact absurd heq hfg
          · exact h2
        have h2 : (cacheLookup (markSeen c g) f).isSome := by
          rw [cacheLookup_markSeen_isSome]
          exact hsome
        exact insertFiles_key_seen rest (markSeen c g) f hmem2 h2 e he hef
    · have hgn : cacheLookup c g = none := Option.not_isSome_iff_eq_none.1 hg
      have hfg : f ≠ g := by
        intro hh
        rw [hh, hgn] at hsome
        cases hsome
      have hmem2 : f ∈ rest.map Prod.fst := by
        rw [List.map_cons] at hmem
        rcases List.mem_cons.1 hmem with heq | h2
        · exact absurd heq hfg
        · exact h2
      rw [insertFiles_cons_new g fl rest c hgn] at he
      have h2 : (cacheLookup (c ++ [(g, (true, mkDisplayItem g fl))]) f).isSome := by
        rw [cacheLookup_append]
        simp [hsome]
      exact insertFiles_key_seen rest _ f hmem2 h2 e he hef

theorem markSeen_keys_sub : ∀ (c : Cache) (g : String),
    ∀ e ∈ markSeen c g, ∃ e0 ∈ c, e.1 = e0.1
  | [], _ => fun e he => by cases he
  | e0 :: rest, g => fun e he => by
    rw [markSeen] at he
    rcases List.mem_cons.1 he with heq | hmem
    · refine ⟨e0, List.mem_cons_self _ _, ?_⟩
      by_cases h0 : e0.1 = g
      · rw [if_pos h0] at heq
        rw [heq]
      · rw [if_neg h0] at heq
        rw [heq]
    · rcases markSeen_keys_sub rest g e hmem with ⟨e1, he1, heq1⟩
      exact ⟨e1, List.mem_cons_of_mem _ he1, heq1⟩

theorem insertFiles_keys : ∀ (es : List (String × Nat)) (c : Cache),
    ∀ e ∈ (insertFiles es c).1,
      (∃ e0 ∈ c, e.1 = e0.1) ∨ e.1 ∈ es.map Prod.fst
  | [], c => fun e he => Or.inl ⟨e, by simpa [insertFiles] using he, rfl⟩
  | (g, fl) :: rest, c => fun e he => by
    by_cases hg : (cacheLookup c g).isSome
    · rw [insertFiles_cons_present g fl rest c hg] at he
      rcases insertFiles_keys rest (markSeen c g) e he with ⟨e0, he0, heq⟩ | hp
      · rcases markSeen_keys_sub c g e0 he0 with ⟨e1, he1, heq1⟩
        exact Or.inl ⟨e1, he1, heq ▸ heq1⟩
      · exact Or.inr (by rw [List.map_cons]; exact List.mem_cons_of_mem _ hp)
    · have hgn : cacheLookup c g = none := Option.not_isSome_iff_eq_none.1 hg
      rw [insertFiles_cons_new g fl rest c hgn] at he
      rcases insertFiles_keys rest _ e he with ⟨e0, he0, heq⟩ | hp
      · rcases List.mem_append.1 he0 with hc | hnew
        · exact Or.inl ⟨e0, hc, heq⟩
        · rcases List.mem_cons.1 hnew with heq0 | habs
          · refine Or.inr ?_
            rw [List.map_cons, heq, heq0]
            exact List.mem_cons_self _ _
          · cases habs
      · exact Or.inr (by rw [List.map_cons]; exact List.mem_cons_of_mem _ hp)

theorem mem_markSeen_cases : ∀ (c : Cache) (g : String),
    ∀ e ∈ markSeen c g, e ∈ c ∨ ∃ e0 ∈ c, e0.1 = g ∧ e = (e0.1, (true, e0.2.2))
  | [], _ => fun e he => by cases he
  | e0 :: rest, g => fun e he => by
    rw [markSeen] at he
    rcases List.mem_cons.1 he with heq | hmem
    · by_cases h0 : e0.1 = g
      · rw [if_pos h0] at heq
        exact Or.inr ⟨e0, List.mem_cons_self _ _, h0, heq⟩
      · rw [if_neg h0] at heq
        exact Or.inl (heq ▸ List.mem_cons_self _ _)
    · rcases mem_markSeen_cases rest g e hmem with hc | ⟨e1, he1, hk, heq1⟩
      · exact Or.inl (List.mem_cons_of_mem _ hc)
      · exact Or.inr ⟨e1, List.mem_cons_of_mem _ he1, hk, heq1⟩

theorem insertFiles_seen_key_mem : ∀ (es : List (String × Nat)) (c : Cache),
    ∀ e ∈ (insertFiles es c).1, e.2.1 = true →
      e.1 ∈ es.map Prod.fst ∨ (e ∈ c ∧ e.2.1 = true)
  | [], c => fun e he hs => Or.inr ⟨by simpa [insertFiles] using he, hs⟩
  | (g, fl) :: rest, c => fun e he hs => by
    by_cases hg : (cacheLookup c g).isSome
    · rw [insertFiles_cons_present g fl rest c hg] at he
      rcases insertFiles_seen_key_mem rest (markSeen c g) e he hs with hp | ⟨hmem, hs2⟩
      · exact Or.inl (by rw [List.map_cons]; exact List.mem_cons_of_mem _ hp)
      · rcases mem_markSeen_cases c g e hmem with hc | ⟨e1, _, hk, heq1⟩
        · exact Or.inr ⟨hc, hs2⟩
        · refine Or.inl ?_
          rw [List.map_cons, heq1, hk]
          exact List.mem_cons_self _ _
    · have hgn : cacheLookup c g = none := Option.not_isSome_iff_eq_none.1 hg
      rw [insertFiles_cons_new g fl rest c hgn] at he
      rcases insertFiles_seen_key_mem rest _ e he hs with hp | ⟨hmem, hs2⟩
      · exact Or.inl (by rw [List.map_cons]; exact List.mem_cons_of_mem _ hp)
      · rcases List.mem_append.1 hmem with hc | hnew
        · exact Or.inr ⟨hc, hs2⟩
        · rcases List.mem_cons.1 hnew with heq0 | habs
          · refine Or.inl ?_
            rw [List.map_cons, heq0]
            exact List.mem_cons_self _ _
          · cases habs

theorem markSeen_mem_seen : ∀ (c : Cache) (g f : String) (it : DisplayItem),
    (f, (true, it)) ∈ c → (f, (true, it)) ∈ markSeen c g
  | [], _, _, _ => fun h => by cases h
  | e0 :: rest, g, f, it => fun h => by
    rw [markSeen]
    rcases List.mem_cons.1 h with heq | hmem
    · by_cases h0 : e0.1 = g
      · rw [if_pos h0, ← heq]
        exact List.mem_cons_self _ _
      · rw [if_neg h0, ← heq]
        exact List.mem_cons_self _ _
    · exact List.mem_cons_of_mem _ (markSeen_mem_seen rest g f it hmem)

theorem insertFiles_mem_preserved :
    ∀ (es : List (String × Nat)) (c : Cache) (f : String) (it : DisplayItem),
    (f, (true, it)) ∈ c → (f, (true, it)) ∈ (insertFiles es c).1
  | [], c, f, it => fun h => by simpa [insertFiles] using h
  | (g, fl) :: rest, c, f, it => fun h => by
    by_cases hg : (cacheLookup c g).isSome
    · rw [insertFiles_cons_present g fl rest c hg]
      exact insertFiles_mem_preserved rest _ f it (markSeen_mem_seen c g f it h)
    · have hgn : cacheLookup c g = none := Option.not_isSome_iff_eq_none.1 hg
      rw [insertFiles_cons_new g fl rest c hgn]
      exact insertFiles_mem_preserved rest _ f it (List.mem_append_left _ h)

theorem markSeen_self_mem : ∀ (c : Cache) (g : String),
    (cacheLookup c g).isSome → ∃ it, (g, (true, it)) ∈ markSeen c g
  | [], g => fun h => by simp [cacheLookup] at h
  | e0 :: rest, g => fun h => by
    rw [markSeen]
    by_cases h0 : e0.1 = g
    · exact ⟨e0.2.2, by rw [if_pos h0, h0]; exact List.mem_cons_self _ _⟩
    · have h2 : (cacheLookup rest g).isSome := by
        rwa [cacheLookup, if_neg h0] at h
      rcases markSeen_self_mem rest g h2 with ⟨it, hit⟩
      exact ⟨it, List.mem_cons_of_mem _ hit⟩

theorem insertFiles_path_mem :
    ∀ (es : List (String × Nat)) (c : Cache) (f : String),
    f ∈ es.map Prod.fst → ∃ it, (f, (true, it)) ∈ (insertFiles es c).1
  | [], _, f => fun hmem => by cases hmem
  | (g, fl) :: rest, c, f => fun hmem => by
    rw [List.map_cons] at hmem
    by_cases hg : (cacheLookup c g).isSome
    · rw [insertFiles_cons_present g fl rest c hg]
      rcases List.mem_cons.1 hmem with heq | h2
      · subst heq
        rcases markSeen_self_mem c f hg with ⟨it, hit⟩
        exact ⟨it, insertFiles_mem_preserved rest _ f it hit⟩
      · exact insertFiles_path_mem rest (markSeen c g) f h2
    · have hgn : cacheLookup c g = none := Option.not_isSome_iff_eq_none.1 hg
      rw [insertFiles_cons_new g fl rest c hgn]
      rcases List.mem_cons.1 hmem with heq | h2
      · subst heq
        refine ⟨mkDisplayItem f fl, insertFiles_mem_preserved rest _ f _ ?_⟩
        exact List.mem_append_right _ (List.mem_cons_self _ _)
      · exact insertFiles_path_mem rest _ f h2

theorem insertFiles_no_actions :
    ∀ (es : List (String × Nat)) (c : Cache),
    (∀ f ∈ es.map Prod.fst, (cacheLookup c f).isSome) →
    (insertFiles es c).2 = []
  | [], c => fun _ => rfl
  | (g, fl) :: rest, c => fun h => by
    have hg : (cacheLookup c g).isSome :=
      h g (by rw [List.map_cons]; exact List.mem_cons_self _ _)
    rw [insertFiles_cons_present g fl rest c hg]
    refine insertFiles_no_actions rest (markSeen c g) ?_
    intro f hf
    rw [cacheLookup_markSeen_isSome]
    exact h f (by rw [List.map_cons]; exact List.mem_cons_of_mem _ hf)

/-! ## Claim theorems (part one) -/

/-- C2: bucket classification is a pure function of the flags: untracked iff
UNKNOWN set and IN_INDEX clear; staged iff IN_INDEX set and neither UNKNOWN
nor CONFLICT set; unstaged otherwise; hence {UNKNOWN} is untracked,
{IN_INDEX, MODIFIED} staged, {IN_INDEX, UNKNOWN} unstaged, and
{CONFLICT, IN_INDEX} unstaged with the conflict marker. -/
theorem bucket_classification (flags : Nat) (p : String) :
    (bucketOf flags = Bucket.untracked ↔
      (statusHasFlag flags UNKNOWN = true ∧ statusHasFlag flags IN_INDEX = false)) ∧
    (bucketOf flags = Bucket.staged ↔
      (statusHasFlag flags IN_INDEX = true ∧ statusHasFlag flags UNKNOWN = false ∧
        statusHasFlag flags CONFLICT = false)) ∧
    (bucketOf flags = Bucket.unstaged ↔
      (¬(statusHasFlag flags UNKNOWN = true ∧ statusHasFlag flags IN_INDEX = false) ∧
        ¬(statusHasFlag flags IN_INDEX = true ∧ statusHasFlag flags UNKNOWN = false ∧
          statusHasFlag flags CONFLICT = false))) ∧
    bucketOf UNKNOWN = Bucket.untracked ∧
    bucketOf (IN_INDEX ||| MODIFIED) = Bucket.staged ∧
    bucketOf (IN_INDEX ||| UNKNOWN) = Bucket.unstaged ∧
    (mkDisplayItem p (CONFLICT ||| IN_INDEX)).bucket = Bucket.unstaged ∧
    (mkDisplayItem p (CONFLICT ||| IN_INDEX)).isConflict = true := by
  refine ⟨?_, ?_, ?_, by decide, by decide, by decide, ?_, ?_⟩
  · cases hU : statusHasFlag flags UNKNOWN <;>
      cases hI : statusHasFlag flags IN_INDEX <;>
      cases hC : statusHasFlag flags CONFLICT <;>
      simp [bucketOf, hU, hI, hC]
  · cases hU : statusHasFlag flags UNKNOWN <;>
      cases hI : statusHasFlag flags IN_INDEX <;>
      cases hC : statusHasFlag flags CONFLICT <;>
      simp [bucketOf, hU, hI, hC]
  · cases hU : statusHasFlag flags UNKNOWN <;>
      cases hI : statusHasFlag flags IN_INDEX <;>
      cases hC : statusHasFlag flags CONFLICT <;>
      simp [bucketOf, hU, hI, hC]
  · show bucketOf (CONFLICT ||| IN_INDEX) = Bucket.unstaged
    decide
  · show statusHasFlag (CONFLICT ||| IN_INDEX) CONFLICT = true
    decide

/-- C2 witness: the concrete classifications evaluated. -/
theorem bucket_classification_witness :
    bucketOf (CONFLICT ||| IN_INDEX) = Bucket.unstaged := by
  have h := (bucket_classification (CONFLICT ||| IN_INDEX) ("x")).2.2.1
  exact h.2 (by decide)

/-- C3: the display color is chosen by testing, in order with first match
winning, CONFLICT, then DELETED, then untracked, then NEW or UNKNOWN or
IN_INDEX, then the default text color; for flags with both CONFLICT and
DELETED set the conflict color wins over the deleted color. -/
theorem color_priority (flags : Nat) :
    (statusHasFlag flags CONFLICT = true → getColorForFile flags = FileColor.blue) ∧
    (statusHasFlag flags CONFLICT = false → statusHasFlag flags DELETED = true →
      getColorForFile flags = FileColor.red) ∧
    (statusHasFlag flags CONFLICT = false → statusHasFlag flags DELETED = false →
      (statusHasFlag flags UNKNOWN = true ∧ statusHasFlag flags IN_INDEX = false) →
      getColorForFile flags = FileColor.orange) ∧
    (statusHasFlag flags CONFLICT = false → statusHasFlag flags DELETED = false →
      ¬(statusHasFlag flags UNKNOWN = true ∧ statusHasFlag flags IN_INDEX = false) →
      (statusHasFlag flags NEW = true ∨ statusHasFlag flags UNKNOWN = true ∨
        statusHasFlag flags IN_INDEX = true) →
      getColorForFile flags = FileColor.green) ∧
    (statusHasFlag flags CONFLICT = false → statusHasFlag flags DELETED = false →
      ¬(statusHasFlag flags UNKNOWN = true ∧ statusHasFlag flags IN_INDEX = false) →
      ¬(statusHasFlag flags NEW = true ∨ statusHasFlag flags UNKNOWN = true ∨
        statusHasFlag flags IN_INDEX = true) →
      getColorForFile flags = FileColor.textColor) ∧
    ((statusHasFlag flags CONFLICT = true ∧ statusHasFlag flags DELETED = true) →
      (getColorForFile flags = FileColor.blue ∧
        getColorForFile flags ≠ FileColor.red)) := by
  cases hC : statusHasFlag flags CONFLICT <;>
    cases hD : statusHasFlag flags DELETED <;>
    cases hU : statusHasFlag flags UNKNOWN <;>
    cases hI : statusHasFlag flags IN_INDEX <;>
    cases hN : statusHasFlag flags NEW <;>
    simp [getColorForFile, hC, hD, hU, hI, hN]

/-- C3 witness: a conflicted and deleted file gets the conflict color, not
the deleted color. -/
theorem color_priority_witness :
    getColorForFile (CONFLICT ||| DELETED) = FileColor.blue ∧
    getColorForFile (CONFLICT ||| DELETED) ≠ FileColor.red :=
  (color_priority (CONFLICT ||| DELETED)).2.2.2.2.2 (by decide)

/-- C6: `mOnlyModified` of a set built from the fresh empty set is true
exactly when every applied flag is exactly MODIFIED: it starts true, stays
true under pure MODIFIED applications, and any other applied flag makes it
false for good, even when later pure MODIFIED entries follow. -/
theorem onlyModified_all_modified (ops : List RFOp) :
    (emptyRevisionFile.applyOps ops).mOnlyModified
      = (ops.all fun op => op.flagOf == MODIFIED) := by
  rw [applyOps_onlyModified]
  rfl

/-- C8: the token-to-flag mapping of `setStatus(rowStatus)`: by leading
character, M maps to exactly MODIFIED, A to NEW, D to DELETED, U to
CONFLICT, R with an all-digits nonempty remainder to RENAMED, C with an
all-digits nonempty remainder to COPIED, and every other token to UNKNOWN;
no token ever sets IN_INDEX; the parsed flags are appended as a new
entry. -/
theorem setStatus_token_table (rf : RevisionFile) (rowSt : String) :
    (rf.setStatusRow rowSt).mFileStatus = rf.mFileStatus ++ [statusTokenFlag rowSt] ∧
    statusHasFlag (statusTokenFlag rowSt) IN_INDEX = false ∧
    (∀ rest, rowSt.data = 'M' :: rest → statusTokenFlag rowSt = MODIFIED) ∧
    (∀ rest, rowSt.data = 'A' :: rest → statusTokenFlag rowSt = NEW) ∧
    (∀ rest, rowSt.data = 'D' :: rest → statusTokenFlag rowSt = DELETED) ∧
    (∀ rest, rowSt.data = 'U' :: rest → statusTokenFlag rowSt = CONFLICT) ∧
    (∀ rest, rowSt.data = 'R' :: rest → rest ≠ [] → rest.all Char.isDigit = true →
      statusTokenFlag rowSt = RENAMED) ∧
    (∀ rest, rowSt.data = 'C' :: rest → rest ≠ [] → rest.all Char.isDigit = true →
      statusTokenFlag rowSt = COPIED) ∧
    (rowSt.data = [] → statusTokenFlag rowSt = UNKNOWN) ∧
    (∀ ch rest, rowSt.data = ch :: rest →
      ch ≠ 'M' → ch ≠ 'A' → ch ≠ 'D' → ch ≠ 'U' →
      (ch = 'R' ∨ ch = 'C' → ¬(rest ≠ [] ∧ rest.all Char.isDigit = true)) →
      statusTokenFlag rowSt = UNKNOWN) := by
  refine ⟨rfl, ?_, ?_, ?_, ?_, ?_, ?_, ?_, ?_, ?_⟩
  · unfold statusTokenFlag
    rcases h : rowSt.data with _ | ⟨ch, rest⟩
    · decide
    · split <;> first
        | decide
        | (split <;> decide)
  · intro rest h
    unfold statusTokenFlag
    rw [h]
    rfl
  · intro rest h
    unfold statusTokenFlag
    rw [h]
    rfl
  · intro rest h
    unfold statusTokenFlag
    rw [h]
    rfl
  · intro rest h
    unfold statusTokenFlag
    rw [h]
    rfl
  · intro rest h hne hdig
    unfold statusTokenFlag
    rw [h]
    simp [hne, hdig, List.isEmpty_iff]
  · intro rest h hne hdig
    unfold statusTokenFlag
    rw [h]
    simp [hne, hdig, List.isEmpty_iff]
  · intro h
    unfold statusTokenFlag
    rw [h]
  · intro ch rest h hM hA hD hU hRC
    unfold statusTokenFlag
    rw [h]
    cases hb : (!rest.isEmpty && rest.all Char.isDigit) with
    | true =>
      have hne : rest ≠ [] := by
        rcases rest with _ | ⟨x, xs⟩
        · simp at hb
        · simp
      have hdig : rest.all Char.isDigit = true := by
        rw [Bool.and_eq_true] at hb
        exact hb.2
      have hR : ch ≠ 'R' := fun hc => hRC (Or.inl hc) ⟨hne, hdig⟩
      have hC : ch ≠ 'C' := fun hc => hRC (Or.inr hc) ⟨hne, hdig⟩
      split <;> simp_all
    | false =>
      split <;> simp_all

/-- C8 witness: the table evaluated on the spec's sample tokens. -/
theorem setStatus_token_table_witness :
    statusTokenFlag ("M") = MODIFIED ∧ statusTokenFlag ("R100") = RENAMED ∧
    statusTokenFlag ("Z") = UNKNOWN :=
  ⟨(setStatus_token_table emptyRevisionFile ("M")).2.2.1 [] rfl, by decide, by decide⟩

/-- C9: `commitChanges` commits nothing and returns false when the staged
list is empty or some retained record carries the conflict mark; the commit
operation runs exactly when the staged list is non-empty, no retained
record is conflicted, and the message check passes, and the returned done
equals whether the commit ran. -/
theorem commitChanges_guard (selFiles : List String) (cache : Cache) (msgOk : Bool) :
    ((selFiles = [] ∨ hasConflicts cache = true) →
      commitChanges selFiles cache msgOk = { commitInvoked := false, done := false }) ∧
    ((commitChanges selFiles cache msgOk).commitInvoked = true ↔
      (selFiles ≠ [] ∧ hasConflicts cache = false ∧ msgOk = true)) ∧
    ((commitChanges selFiles cache msgOk).done
      = (commitChanges selFiles cache msgOk).commitInvoked) := by
  cases selFiles with
  | nil => cases h : hasConflicts cache <;> cases msgOk <;> simp [commitChanges, h]
  | cons a rest => cases h : hasConflicts cache <;> cases msgOk <;> simp [commitChanges, h]

/-- C9 witness: an empty staged list commits nothing, and a non-empty
conflict-free staged list with a passing message check commits. -/
theorem commitChanges_guard_witness :
    commitChanges [] [] true = { commitInvoked := false, done := false } ∧
    (commitChanges [("f")] [] true).commitInvoked = true :=
  ⟨(commitChanges_guard [] [] true).1 (Or.inl rfl),
   (commitChanges_guard [("f")] [] true).2.1.2 ⟨by simp, rfl, rfl⟩⟩

/-- C10: the sweep keeps exactly the seen records, each unchanged and in
place (the survivors form a sublist of the cache), and emits a remove for a
path exactly when an unseen record with that path was cached. -/
theorem clearCache_sweep (cache : Cache) :
    (∀ x, x ∈ (clearCache cache).1 ↔ (x ∈ cache ∧ x.2.1 = true)) ∧
    ((clearCache cache).1.Sublist cache) ∧
    (∀ p, ReconcileAction.remove p ∈ (clearCache cache).2 ↔
      ∃ it, (p, (false, it)) ∈ cache) := by
  refine ⟨?_, List.filter_sublist _, ?_⟩
  · intro x
    simp [clearCache]
  · intro p
    constructor
    · intro h
      rcases List.mem_map.1 h with ⟨e, he, heq⟩
      rcases List.mem_filter.1 he with ⟨hmem, hseen⟩
      rcases e with ⟨q, s, it⟩
      simp at hseen
      cases ReconcileAction.remove.injEq .. ▸ heq
      exact ⟨it, by rwa [hseen] at hmem⟩
    · intro ⟨it, hmem⟩
      exact List.mem_map.2 ⟨(p, (false, it)), List.mem_filter.2 ⟨hmem, by simp⟩, rfl⟩

/-- C10 witness: a two-record cache with one seen and one unseen record,
swept. -/
theorem clearCache_sweep_witness :
    (("a"), (true, mkDisplayItem ("a") MODIFIED)) ∈
      (clearCache [(("a"), (true, mkDisplayItem ("a") MODIFIED)),
                   (("b"), (false, mkDisplayItem ("b") MODIFIED))]).1 ∧
    ReconcileAction.remove ("b") ∈
      (clearCache [(("a"), (true, mkDisplayItem ("a") MODIFIED)),
                   (("b"), (false, mkDisplayItem ("b") MODIFIED))]).2 :=
  ⟨((clearCache_sweep _).1 _).2 ⟨by simp, rfl⟩,
   ((clearCache_sweep [(("a"), (true, mkDisplayItem ("a") MODIFIED)),
                       (("b"), (false, mkDisplayItem ("b") MODIFIED))]).2.2 ("b")).2
     ⟨mkDisplayItem ("b") MODIFIED, by simp⟩⟩

/-! ## Claim theorems (part two) -/

/-- C1 counterexample: path x enters the retained mapping with flags
{CONFLICT, IN_INDEX} (bucket unstaged, conflict suffix, conflict
color); a second pass with flags {IN_INDEX} for the same path emits no
action at all and leaves the retained record with its stale unstaged
bucket, conflict suffix and conflict color — the reconciler does not
recompute bucket/conflict/color for a path already in the retained
mapping, so x is not reclassified to staged, contrary to the claim. -/
theorem no_reclassify_on_retained_path_cex :
    (reconcilePass [(("x"), IN_INDEX)]
        (reconcilePass [(("x"), CONFLICT ||| IN_INDEX)] []).1).2 = [] ∧
    cacheLookup (reconcilePass [(("x"), IN_INDEX)]
        (reconcilePass [(("x"), CONFLICT ||| IN_INDEX)] []).1).1 ("x")
      = some (true, { bucket := Bucket.unstaged, name := ("x (conflicts"),
                      isConflict := true, color := FileColor.blue }) ∧
    bucketOf IN_INDEX = Bucket.staged :=
  ⟨rfl, rfl, rfl⟩

/-- C1 amended: for a path of the new set that is already in the retained
mapping, the pass only marks the record as seen: the stored item (bucket,
conflict suffix, color) is kept unchanged — nothing is recomputed from
the entry's current flags — and the pass emits no action (no insert, no
remove, and the code has no move/update action) for that path; in
particular the {CONFLICT, IN_INDEX} then {IN_INDEX} scenario keeps the
same retained record with its stale unstaged/conflict classification. -/
theorem retained_path_kept_unchanged (entries : List (String × Nat)) (cache : Cache)
    (fileName : String) (s : Bool) (item : DisplayItem)
    (hmem : fileName ∈ entries.map Prod.fst)
    (hlook : cacheLookup cache fileName = some (s, item)) :
    cacheLookup (reconcilePass entries cache).1 fileName = some (true, item) ∧
    ∀ a ∈ (reconcilePass entries cache).2, ReconcileAction.path a ≠ fileName := by
  have hprep : cacheLookup (prepareCache cache) fileName = some (false, item) := by
    rw [cacheLookup_prepareCache, hlook]
    rfl
  have hsome : (cacheLookup (prepareCache cache) fileName).isSome := by
    rw [hprep]
    rfl
  have hins := insertFiles_lookup entries (prepareCache cache) fileName false item hprep
  rw [if_pos hmem] at hins
  have hallseen := insertFiles_key_seen entries (prepareCache cache) fileName hmem hsome
  constructor
  · exact clearCache_lookup_seen (insertFiles entries (prepareCache cache)).1
      fileName item hins
  · intro a ha
    rcases List.mem_append.1 ha with h1 | h2
    · exact insertFiles_actions_not_present entries (prepareCache cache) fileName
        hsome a h1
    · exact clearCache_no_remove_for_seen (insertFiles entries (prepareCache cache)).1
        fileName hallseen a h2

/-- C1 witness: the conflict-resolution scenario instantiated — the
retained record survives unchanged and no action names its path. -/
theorem retained_path_kept_unchanged_witness :
    cacheLookup (reconcilePass [(("x"), IN_INDEX)]
        [(("x"), (true, mkDisplayItem ("x") (CONFLICT ||| IN_INDEX)))]).1 ("x")
      = some (true, mkDisplayItem ("x") (CONFLICT ||| IN_INDEX)) ∧
    ∀ a ∈ (reconcilePass [(("x"), IN_INDEX)]
        [(("x"), (true, mkDisplayItem ("x") (CONFLICT ||| IN_INDEX)))]).2,
      ReconcileAction.path a ≠ ("x") :=
  retained_path_kept_unchanged [(("x"), IN_INDEX)]
    [(("x"), (true, mkDisplayItem ("x") (CONFLICT ||| IN_INDEX)))]
    ("x") true (mkDisplayItem ("x") (CONFLICT ||| IN_INDEX))
    (by simp) (by simp [cacheLookup])

/-- C4: reconciliation is idempotent — running a second pass with the
exact same entry set produces no action at all (no insert, no move, no
remove), and every retained record of the second pass is marked seen. -/
theorem reconcile_idempotent (entries : List (String × Nat)) (cache : Cache) :
    (reconcilePass entries (reconcilePass entries cache).1).2 = [] ∧
    ∀ e ∈ (reconcilePass entries (reconcilePass entries cache).1).1, e.2.1 = true := by
  have hfst : ∀ (es : List (String × Nat)) (c : Cache),
      (reconcilePass es c).1 = ((insertFiles es (prepareCache c)).1.filter fun e => e.2.1) :=
    fun es c => rfl
  have hsnd : ∀ (es : List (String × Nat)) (c : Cache),
      (reconcilePass es c).2
        = (insertFiles es (prepareCache c)).2
            ++ (((insertFiles es (prepareCache c)).1.filter fun e => !e.2.1).map
                fun e => ReconcileAction.remove e.1) :=
    fun es c => rfl
  set c1 := (reconcilePass entries cache).1 with hc1def
  have hc1keys : ∀ e ∈ c1, e.1 ∈ entries.map Prod.fst := by
    intro e he
    rw [hc1def, hfst] at he
    have hmem := (List.mem_filter.1 he).1
    have hseen : e.2.1 = true := (List.mem_filter.1 he).2
    rcases insertFiles_seen_key_mem entries (prepareCache cache) e hmem hseen with hp | ⟨hc, hs⟩
    · exact hp
    · rw [prepareCache_seen_false cache e hc] at hs
      cases hs
  have hc1present : ∀ f ∈ entries.map Prod.fst, (cacheLookup c1 f).isSome := by
    intro f hf
    rcases insertFiles_path_mem entries (prepareCache cache) f hf with ⟨it, hit⟩
    have hmem2 : (f, (true, it)) ∈ c1 := by
      rw [hc1def, hfst]
      exact List.mem_filter.2 ⟨hit, rfl⟩
    exact mem_cacheLookup_isSome c1 f (true, it) hmem2
  have hp2present : ∀ f ∈ entries.map Prod.fst, (cacheLookup (prepareCache c1) f).isSome := by
    intro f hf
    rw [cacheLookup_prepareCache]
    have hs := hc1present f hf
    cases h : cacheLookup c1 f
    · rw [h] at hs
      simp at hs
    · simp
  have hp2keys : ∀ e ∈ prepareCache c1, e.1 ∈ entries.map Prod.fst := by
    intro e he
    rcases mem_prepareCache c1 e he with ⟨e0, he0, heq⟩
    rw [heq]
    exact hc1keys e0 he0
  have hins2seen : ∀ e ∈ (insertFiles entries (prepareCache c1)).1, e.2.1 = true := by
    intro e he
    rcases insertFiles_keys entries (prepareCache c1) e he with ⟨e0, he0, heq⟩ | hp
    · exact insertFiles_key_seen entries (prepareCache c1) e.1
        (heq ▸ hp2keys e0 he0) (hp2present e.1 (heq ▸ hp2keys e0 he0)) e he rfl
    · exact insertFiles_key_seen entries (prepareCache c1) e.1 hp
        (hp2present e.1 hp) e he rfl
  constructor
  · rw [hsnd, insertFiles_no_actions entries (prepareCache c1) hp2present,
        List.nil_append]
    have hnil : ((insertFiles entries (prepareCache c1)).1.filter fun e => !e.2.1) = [] := by
      rw [List.filter_eq_nil_iff]
      intro e he
      simp [hins2seen e he]
    rw [hnil]
    rfl
  · intro e he
    rw [hfst] at he
    exact (List.mem_filter.1 he).2

/-- C4 witness: a concrete double pass evaluated. -/
theorem reconcile_idempotent_witness :
    (reconcilePass [(("x"), MODIFIED)]
        (reconcilePass [(("x"), MODIFIED)] []).1).2 = [] :=
  (reconcile_idempotent [(("x"), MODIFIED)] []).1

/-- C5: with retained paths {a, b, c} and a new set {a, c, d}, the pass
emits exactly one insert (for d) and one remove (for b), and no insert or
remove for a or c; a and c keep their records (marked seen), b's record is
deleted, d's freshly built record is added. -/
theorem reconcile_sparse (a b c d : String) (ea eb ec : Bool × DisplayItem)
    (fa fc fd : Nat) (hab : a ≠ b) (hac : a ≠ c) (had : a ≠ d)
    (hbc : b ≠ c) (hbd : b ≠ d) (hcd : c ≠ d) :
    reconcilePass [(a, fa), (c, fc), (d, fd)] [(a, ea), (b, eb), (c, ec)]
      = ([(a, (true, ea.2)), (c, (true, ec.2)), (d, (true, mkDisplayItem d fd))],
         [ReconcileAction.insert d (mkDisplayItem d fd), ReconcileAction.remove b]) := by
  simp [reconcilePass, prepareCache, insertFiles, cacheLookup, markSeen, clearCache,
        hab, hac, had, hbc, hbd, hcd,
        Ne.symm hab, Ne.symm hac, Ne.symm had, Ne.symm hbc, Ne.symm hbd, Ne.symm hcd]

/-- C5 witness: the sparse scenario on concrete paths. -/
theorem reconcile_sparse_witness :
    reconcilePass [(("a"), MODIFIED), (("c"), MODIFIED), (("d"), MODIFIED)]
        [(("a"), (true, mkDisplayItem ("a") MODIFIED)),
         (("b"), (true, mkDisplayItem ("b") MODIFIED)),
         (("c"), (true, mkDisplayItem ("c") MODIFIED))]
      = ([(("a"), (true, mkDisplayItem ("a") MODIFIED)),
          (("c"), (true, mkDisplayItem ("c") MODIFIED)),
          (("d"), (true, mkDisplayItem ("d") MODIFIED))],
         [ReconcileAction.insert ("d") (mkDisplayItem ("d") MODIFIED),
          ReconcileAction.remove ("b")]) :=
  reconcile_sparse ("a") ("b") ("c") ("d")
    (true, mkDisplayItem ("a") MODIFIED) (true, mkDisplayItem ("b") MODIFIED)
    (true, mkDisplayItem ("c") MODIFIED) MODIFIED MODIFIED MODIFIED
    (by decide) (by decide) (by decide) (by decide) (by decide) (by decide)

/-- C7: for every index in [0, count()) `getFile` returns the stored path
and `statusCmp` reports exactly the stored flags; for every index outside
[0, count()) both fail with OutOfRange instead of returning a value. -/
theorem accessor_bounds (rf : RevisionFile) (index : Int) (sf : Nat)
    (hlen : rf.mFileStatus.length = rf.mFiles.length) :
    ((0 ≤ index ∧ index < (rf.count : Int)) →
      rf.getFile index = Except.ok (rf.mFiles.getD index.toNat ("")) ∧
      rf.statusCmp index sf
        = Except.ok (statusHasFlag (rf.mFileStatus.getD index.toNat 0) sf)) ∧
    (¬(0 ≤ index ∧ index < (rf.count : Int)) →
      rf.getFile index = Except.error GitError.outOfRange ∧
      rf.statusCmp index sf = Except.error GitError.outOfRange) := by
  constructor
  · intro h
    have hn : index.toNat < rf.mFiles.length := by
      have h1 := h.1
      have h2 := h.2
      rw [RevisionFile.count] at h2
      omega
    constructor
    · rw [RevisionFile.getFile, if_pos h]
      cases hg : rf.mFiles.get? index.toNat with
      | none =>
        have := List.get?_eq_none.1 hg
        omega
      | some p =>
        rw [List.getD_eq_getElem?_getD, ← List.get?_eq_getElem?, hg]
        rfl
    · rw [RevisionFile.statusCmp, if_pos h]
      cases hg : rf.mFileStatus.get? index.toNat with
      | none =>
        have := List.get?_eq_none.1 hg
        omega
      | some st =>
        rw [List.getD_eq_getElem?_getD, ← List.get?_eq_getElem?, hg]
        rfl
  · intro h
    rw [RevisionFile.getFile, if_neg h, RevisionFile.statusCmp, if_neg h]
    exact ⟨rfl, rfl⟩

/-- C7 witness: a one-entry set read back in range and probed out of
range. -/
theorem accessor_bounds_witness :
    ({ mFiles := [("a")], mFileStatus := [(MODIFIED)] } : RevisionFile).getFile 0
      = Except.ok ("a") ∧
    ({ mFiles := [("a")], mFileStatus := [(MODIFIED)] } : RevisionFile).statusCmp 0 MODIFIED
      = Except.ok true ∧
    ({ mFiles := [("a")], mFileStatus := [(MODIFIED)] } : RevisionFile).getFile 1
      = Except.error GitError.outOfRange ∧
    ({ mFiles := [("a")], mFileStatus := [(MODIFIED)] } : RevisionFile).statusCmp (-1) MODIFIED
      = Except.error GitError.outOfRange := by
  have hin := (accessor_bounds { mFiles := [("a")], mFileStatus := [(MODIFIED)] } 0 MODIFIED
    rfl).1 (by constructor <;> decide)
  have hout1 := (accessor_bounds { mFiles := [("a")], mFileStatus := [(MODIFIED)] } 1 MODIFIED
    rfl).2 (by intro hcon; exact absurd hcon.2 (by decide))
  have hout2 := (accessor_bounds { mFiles := [("a")], mFileStatus := [(MODIFIED)] } (-1) MODIFIED
    rfl).2 (by intro hcon; exact absurd hcon.1 (by decide))
  refine ⟨?_, ?_, hout1.1, hout2.2⟩
  · rw [hin.1]
    rfl
  · rw [hin.2]
    rfl

end GitQlient
